import Mathlib

/-!
Verification of the table-reconstruction pipeline
(stitching / segmentation / classification) of the
extract-rice-data-pipeline repository.

The grids manipulated by the scripts are pandas DataFrames whose cells are
rendered as text before every heuristic runs (`astype(str)`).  We embed a
DataFrame as a `Grid`, a list of rows, each row a list of cell strings.
Text-assembly helpers (`str.cat(sep=" ")`, `to_string`) are embedded as the
space-joined cell text of a row and the newline-joined text of the rows;
this models the textual content the heuristics inspect while abstracting
pandas' column-alignment padding and index decoration.  All heuristics in
the scripts are pure functions of that text.
-/

namespace RicePipeline

/-- A grid of text cells: one page's table, or a sheet. -/
abbrev Grid := List (List String)

/-- Number of columns, modelling `len(df.columns)`: pandas pads ragged rows,
so the column count is the longest row's length. -/
def ncols (g : Grid) : Nat := (g.map List.length).foldr max 0

/-- `pat` occurs as a contiguous substring of the character list `hay`,
modelling Python's `pat in hay`. -/
def containsStr (hay : List Char) (pat : String) : Bool :=
  hay.tails.any (fun t => pat.toList.isPrefixOf t)

/-- Lower-casing of a character list, modelling `str.lower()` on the ASCII
text these scripts inspect. -/
def lowerL (l : List Char) : List Char := l.map Char.toLower

/-- Join character lists with a separator list.  Used to assemble row and
grid text the way the scripts do. -/
def joinWith (sep : List Char) : List (List Char) → List Char
  | [] => []
  | [x] => x
  | x :: y :: xs => x ++ sep ++ joinWith sep (y :: xs)

/-- The text of one row, modelling `df.iloc[i].astype(str).str.cat(sep=" ")`:
cells joined by a single space. -/
def rowText (row : List String) : List Char :=
  joinWith [' '] (row.map String.toList)

/-- The text of a whole grid, modelling `df.astype(str).to_string()` at the
level the heuristics depend on: rows joined by newlines, cells by spaces. -/
def gridText (g : Grid) : List Char :=
  joinWith ['\n'] (g.map rowText)

/-- Lower-cased text of row `i` (rows past the end read as empty). -/
def rowTextLower (g : Grid) (i : Nat) : List Char :=
  lowerL (rowText (g.getD i []))

/-! ## RiceFilter.py — the classifier -/

/-- The story-telling stop words of `is_narrative_text`, space-padded as in
the source. -/
def stopWords : List String :=
  [" the ", " is ", " that ", " are ", " with ", " they ", " was "]

/-- `is_narrative_text`: at least 2 of the stop words occur in the grid's
lower-cased text. -/
def is_narrative_text (df : Grid) : Bool :=
  2 ≤ stopWords.countP (fun w => containsStr (lowerL (gridText df)) w)

/-- Cell-length part of `is_valid_data_structure`: no cell of the first 5
columns may exceed 100 characters. -/
def cellLenOk (df : Grid) : Bool :=
  df.all (fun r => (r.take 5).all (fun c => c.length ≤ 100))

/-- Digit-density part of `is_valid_data_structure`: the grid's text must be
nonempty and at least 2% digits.  `density < 0.02` on exact rationals is
`total > 50 * digits`, so the check passes when `total ≤ 50 * digits`. -/
def densityOk (df : Grid) : Bool :=
  let blob := gridText df
  let total := blob.length
  let digits := blob.countP Char.isDigit
  if total = 0 then false
  else decide (total ≤ 50 * digits)

/-- `is_valid_data_structure`: cell-length bound, then digit density. -/
def is_valid_data_structure (df : Grid) : Bool :=
  cellLenOk df && densityOk df

/-- Lower-cased text of the first 20 rows, modelling
`df.head(20).astype(str).to_string().lower()`. -/
def headerChunk (df : Grid) : List Char :=
  lowerL (gridText (df.take 20))

/-- The per-row commodity loop of `is_strictly_rice_table`: walk the rows of
the header window; a row whose text contains "commodity" returns keep if it
contains "rice", discard if it contains "corn" or "wheat"; otherwise the
loop keeps walking.  Falling out of the loop yields `none`. -/
def layer1Scan : Grid → Option Bool
  | [] => none
  | r :: rs =>
    let t := lowerL (rowText r)
    if containsStr t "commodity" then
      if containsStr t "rice" then some true
      else if containsStr t "corn" || containsStr t "wheat" then some false
      else layer1Scan rs
    else layer1Scan rs

/-- PRIORITY 2 of `is_strictly_rice_table` (the code after the commodity
loop): narrative check, structure check, then content fallback on the
header window. -/
def unlabeledChecks (df : Grid) : Bool :=
  if is_narrative_text df then false
  else if !is_valid_data_structure df then false
  else
    let hc := headerChunk df
    containsStr hc "rice" && !(containsStr hc "corn" || containsStr hc "wheat")

/-- `is_strictly_rice_table`: if the 20-row header window mentions
"commodity", run the commodity loop; a decision there is final, otherwise
fall through to the PRIORITY 2 checks. -/
def is_strictly_rice_table (df : Grid) : Bool :=
  if containsStr (headerChunk df) "commodity" then
    match layer1Scan (df.take 20) with
    | some b => b
    | none => unlabeledChecks df
  else unlabeledChecks df

/-! ## TableSplitter.py — the segmenter -/

/-- A row is an anchor when some cell contains "Commodity" case-insensitively,
modelling the `str.contains('Commodity', case=False)` mask. -/
def rowHasCommodity (row : List String) : Bool :=
  row.any (fun c => containsStr (lowerL c.toList) "commodity")

/-- The anchor row indices, in increasing row order. -/
def commodityIndices (df : Grid) : List Nat :=
  (List.range df.length).filter (fun i => rowHasCommodity (df.getD i []))

/-- The table-title markers of `find_true_table_start`. -/
def titleMarkers : List String := ["psd table", "trade matrix", "prices table"]

/-- Row `i`'s lower-cased text contains one of the title markers. -/
def hasTitleMarker (df : Grid) (i : Nat) : Bool :=
  titleMarkers.any (fun m => containsStr (rowTextLower df i) m)

/-- The backward scan of `find_true_table_start`: starting at row `i`, test
`fuel + 1` rows walking downward, returning the first row carrying a title
marker.  This is `for i in range(idx, limit - 1, -1)` with
`fuel = idx - limit`. -/
def scanBack (df : Grid) : Nat → Nat → Option Nat
  | i, 0 => if hasTitleMarker df i then some i else none
  | i, fuel + 1 => if hasTitleMarker df i then some i else scanBack df (i - 1) fuel

/-- `find_true_table_start`: scan backward from the anchor down to
`max(0, idx - 15)`; if no marker row is found fall back to
`max(0, idx - 2)`.  (Here `min 15 idx = idx - max(0, idx - 15)` is the
number of steps the Python loop takes after its first one, and truncated
subtraction renders both `max(0, _)` clamps.) -/
def find_true_table_start (df : Grid) (idx : Nat) : Nat :=
  (scanBack df idx (min 15 idx)).getD (idx - 2)

/-- Slicing loop of `split_mixed_tables`: each cut begins a sub-table that
ends at the next cut, the last one at the end of the grid; a slice `a:b` is
`(drop a).take (b - a)` exactly as `df.iloc[a:b]`. -/
def sliceSpans (df : Grid) : List Nat → List Grid
  | [] => []
  | [s] => [(df.drop s).take (df.length - s)]
  | s :: s2 :: rest => (df.drop s).take (s2 - s) :: sliceSpans df (s2 :: rest)

/-- `split_mixed_tables`: no anchors returns the grid whole; otherwise cut
at the resolved starts of all anchors, the first start forced to row 0
(the Python loop computes `find_true_table_start` for every anchor and
then overwrites the first start with 0, so the first resolved start is
never consulted). -/
def split_mixed_tables (df : Grid) : List Grid :=
  match commodityIndices df with
  | [] => [df]
  | _ :: idxs => sliceSpans df (0 :: idxs.map (find_true_table_start df))

/-! ## OCR_table_extractor.py — garbage filter and stitcher -/

/-- One extracted table together with its page number: an element of the
`{'page': ..., 'df': ...}` dictionaries the scripts pass around. -/
structure Entry where
  page : Nat
  df : Grid
deriving DecidableEq

/-- The digit blob of `is_valid_table`: the grid's text with every space and
newline removed (`to_string().replace(" ", "").replace("\n", "")`). -/
def ocrBlob (df : Grid) : List Char :=
  (gridText df).filter (fun c => !(c == ' ' || c == '\n'))

/-- `is_valid_table`: at least 2 rows and 2 columns, a nonempty blob, and a
digit density of at least 0.08.  `digits / total ≥ 0.08` on exact rationals
is `25 * digits ≥ 2 * total`. -/
def is_valid_table (df : Grid) : Bool :=
  if df.length < 2 || ncols df < 2 then false
  else
    let blob := ocrBlob df
    if blob.length = 0 then false
    else decide (2 * blob.length ≤ 25 * blob.countP Char.isDigit)

/-- Fragment admission of `process_pdf` part A: per page (0-indexed by the
extractor), keep exactly the cleaned tables passing `is_valid_table`,
tagging each with the 1-indexed page number. -/
def collectFragments (pages : List (Nat × List Grid)) : List Entry :=
  pages.flatMap (fun pr => (pr.2.filter is_valid_table).map (fun t => ⟨pr.1 + 1, t⟩))

/-- Cells matched between the incoming fragment's first row and the chain's
first row, position by position as text:
`sum(1 for i, x in enumerate(row_0_new) if x == row_0_old[i])`. -/
def headerMatchCount (newRow oldRow : List String) : Nat :=
  (newRow.zip oldRow).countP (fun p => p.1 == p.2)

/-- The repeated-header test of `stitch_tables` CHECK 3:
`match_count > len(row_0_new) / 2`, i.e. strictly more than half the cells
of the incoming first row match the chain's first row. -/
def dropsHeader (currDf nextDf : Grid) : Bool :=
  decide ((nextDf.headD []).length < 2 * headerMatchCount (nextDf.headD []) (currDf.headD []))

/-- The rows of the incoming fragment actually appended on merge: the first
row is dropped exactly when `dropsHeader` fires. -/
def mergeNextDf (currDf nextDf : Grid) : Grid :=
  if dropsHeader currDf nextDf then nextDf.drop 1 else nextDf

/-- The loop of `stitch_tables`.  `current_entry` is an alias into the input
list, and merging assigns through it, so we model the input list as a heap
of entries addressed by index: `cur` is the index `current_entry` points
at, `js` the indices still to process, `stitched` the indices already
sealed.  Merging updates the heap at `cur` (the aliased dictionary) with
the merged grid and the page of the absorbed fragment; sealing appends
`cur` and repoints to the incoming index.  Returns the final heap (the
state of the caller's list after the call) and the sealed indices. -/
def stitchAux (heap : List Entry) (stitched : List Nat) (cur : Nat) :
    List Nat → List Entry × List Nat
  | [] => (heap, stitched ++ [cur])
  | j :: js =>
    let c := heap.getD cur ⟨0, []⟩
    let n := heap.getD j ⟨0, []⟩
    if n.page == c.page + 1 && ncols n.df == ncols c.df then
      stitchAux (heap.set cur ⟨n.page, c.df ++ mergeNextDf c.df n.df⟩) stitched cur js
    else
      stitchAux heap (stitched ++ [cur]) j js

/-- `stitch_tables`: start the chain at index 0, process indices
`1 .. n-1`, seal the straggler.  First component: the final state of the
input list; second component: the returned consolidated list. -/
def stitch_tables (heap : List Entry) : List Entry × List Entry :=
  match heap with
  | [] => (heap, [])
  | _ :: rest =>
    let out := stitchAux heap [] 0 (List.range' 1 rest.length)
    (out.1, out.2.map (fun i => out.1.getD i ⟨0, []⟩))

/-! ## PDFScraper.py — mergeability test and stitching pass -/

/-- `are_tables_mergeable`: consecutive pages and identical column counts. -/
def are_tables_mergeable (prevDf currDf : Grid) (prevPage currPage : Nat) : Bool :=
  currPage == prevPage + 1 && ncols prevDf == ncols currDf

/-- One iteration of the STEP 2 loop of `process_pdfs_with_stitching`:
merge the next piece into `current_merged` (no header suppression here —
all rows are appended), or finalize the current table and start a new
block. -/
def pdfStitchStep : List Grid × Entry → Entry → List Grid × Entry
  | (finals, cur), nxt =>
    if are_tables_mergeable cur.df nxt.df cur.page nxt.page then
      (finals, ⟨nxt.page, cur.df ++ nxt.df⟩)
    else
      (finals ++ [cur.df], nxt)

/-- The STEP 2 stitching pass of `process_pdfs_with_stitching`: fold the
pieces after the first through `pdfStitchStep`, then append the table
remaining in the buffer. -/
def pdfStitch : List Entry → List Grid
  | [] => []
  | p :: ps =>
    let out := ps.foldl pdfStitchStep ([], p)
    out.1 ++ [out.2.df]

/-! ## Characterizing the backward title scan -/

theorem scanBack_eq_some_iff (df : Grid) :
    ∀ (fuel i j : Nat),
      scanBack df i fuel = some j ↔
        (hasTitleMarker df j = true ∧ i - fuel ≤ j ∧ j ≤ i ∧
          ∀ k, j < k → k ≤ i → hasTitleMarker df k = false) := by
  intro fuel
  induction fuel with
  | zero =>
    intro i j
    by_cases h : hasTitleMarker df i = true
    · simp only [scanBack, h, if_true, Option.some.injEq]
      constructor
      · rintro rfl
        exact ⟨h, by omega, le_refl _, fun k hk hk' => by omega⟩
      · rintro ⟨_, h1, h2, _⟩
        omega
    · rw [Bool.not_eq_true] at h
      simp only [scanBack, h, Bool.false_eq_true, if_false, reduceCtorEq, false_iff, not_and]
      intro hj h1 h2
      have hji : j = i := by omega
      rw [hji] at hj
      rw [hj] at h
      simp at h
  | succ fuel ih =>
    intro i j
    by_cases h : hasTitleMarker df i = true
    · simp only [scanBack, h, if_true, Option.some.injEq]
      constructor
      · rintro rfl
        exact ⟨h, by omega, le_refl _, fun k hk hk' => by omega⟩
      · rintro ⟨hj, h1, h2, hmax⟩
        rcases Nat.lt_or_ge j i with hlt | hge
        · have hfalse := hmax i hlt (le_refl _)
          rw [hfalse] at h
          cases h
        · omega
    · rw [Bool.not_eq_true] at h
      simp only [scanBack, h, Bool.false_eq_true, if_false]
      rw [ih (i - 1) j]
      constructor
      · rintro ⟨hj, h1, h2, hmax⟩
        refine ⟨hj, by omega, by omega, fun k hk hk' => ?_⟩
        rcases Nat.lt_or_ge k i with hki | hki
        · exact hmax k hk (by omega)
        · have hki' : k = i := by omega
          rw [hki']
          exact h
      · rintro ⟨hj, h1, h2, hmax⟩
        have hji : j ≠ i := by
          rintro rfl
          rw [hj] at h
          cases h
        exact ⟨hj, by omega, by omega, fun k hk hk' => hmax k hk (by omega)⟩

theorem scanBack_eq_none_iff (df : Grid) :
    ∀ (fuel i : Nat),
      scanBack df i fuel = none ↔
        ∀ k, i - fuel ≤ k → k ≤ i → hasTitleMarker df k = false := by
  intro fuel
  induction fuel with
  | zero =>
    intro i
    by_cases h : hasTitleMarker df i = true
    · simp only [scanBack, h, if_true, reduceCtorEq, false_iff, not_forall]
      exact ⟨i, by omega, le_refl _, by simp [h]⟩
    · rw [Bool.not_eq_true] at h
      simp only [scanBack, h, Bool.false_eq_true, if_false, true_iff]
      intro k h1 h2
      have hki : k = i := by omega
      rw [hki]
      exact h
  | succ fuel ih =>
    intro i
    by_cases h : hasTitleMarker df i = true
    · simp only [scanBack, h, if_true, reduceCtorEq, false_iff, not_forall]
      exact ⟨i, by omega, le_refl _, by simp [h]⟩
    · rw [Bool.not_eq_true] at h
      simp only [scanBack, h, Bool.false_eq_true, if_false]
      rw [ih (i - 1)]
      constructor
      · intro hall k h1 h2
        rcases Nat.lt_or_ge k i with hki | hki
        · exact hall k (by omega) (by omega)
        · have hki' : k = i := by omega
          rw [hki']
          exact h
      · intro hall k h1 h2
        exact hall k (by omega) (by omega)

/-- Full characterization of `find_true_table_start`: either it returns the
closest row at or above the anchor (within the 15-row window) carrying a
title marker, or no row in the window carries one and it returns the
2-above fallback.  Truncated subtraction renders the `max(0, _)` clamps. -/
theorem find_true_table_start_spec (df : Grid) (i : Nat) :
    (hasTitleMarker df (find_true_table_start df i) = true ∧
      i - 15 ≤ find_true_table_start df i ∧ find_true_table_start df i ≤ i ∧
      ∀ k, find_true_table_start df i < k → k ≤ i → hasTitleMarker df k = false) ∨
    ((∀ k, i - 15 ≤ k → k ≤ i → hasTitleMarker df k = false) ∧
      find_true_table_start df i = i - 2) := by
  rcases h : scanBack df i (min 15 i) with _ | j
  · right
    have hr : find_true_table_start df i = i - 2 := by
      rw [find_true_table_start, h]
      rfl
    rw [scanBack_eq_none_iff] at h
    exact ⟨fun k h1 h2 => h k (by omega) h2, hr⟩
  · left
    have hr : find_true_table_start df i = j := by
      rw [find_true_table_start, h]
      rfl
    rw [scanBack_eq_some_iff] at h
    rw [hr]
    exact ⟨h.1, by omega, h.2.2.1, h.2.2.2⟩

/-- The resolved start never lies below the anchor row. -/
theorem find_true_table_start_le (df : Grid) (i : Nat) :
    find_true_table_start df i ≤ i := by
  rcases find_true_table_start_spec df i with ⟨_, _, h, _⟩ | ⟨_, h⟩ <;> omega

/-- Resolved starts are monotone in the anchor position: a later anchor
never resolves to an earlier start. -/
theorem find_true_table_start_mono (df : Grid) {i j : Nat} (hij : i ≤ j) :
    find_true_table_start df i ≤ find_true_table_start df j := by
  rcases find_true_table_start_spec df i with ⟨hmi, _hlo_i, hhi_i, _hmax_i⟩ | ⟨hnone_i, hfb_i⟩ <;>
    rcases find_true_table_start_spec df j with ⟨hmj, hlo_j, _hhi_j, hmax_j⟩ | ⟨hnone_j, hfb_j⟩
  · by_contra hc
    push_neg at hc
    have hx := hmax_j (find_true_table_start df i) hc (le_trans hhi_i hij)
    rw [hx] at hmi
    cases hmi
  · by_contra hc
    push_neg at hc
    have hx := hnone_j (find_true_table_start df i) (by omega) (le_trans hhi_i hij)
    rw [hx] at hmi
    cases hmi
  · by_contra hc
    push_neg at hc
    have hx := hnone_i (find_true_table_start df j) (by omega) (by omega)
    rw [hx] at hmj
    cases hmj
  · omega

/-! ## Segmentation partitions the grid -/

/-- Anchor indices are strictly increasing. -/
theorem commodityIndices_pairwise (df : Grid) :
    (commodityIndices df).Pairwise (· < ·) :=
  (List.pairwise_lt_range df.length).filter _

/-- Every anchor index is a valid row index. -/
theorem commodityIndices_lt_length (df : Grid) :
    ∀ i ∈ commodityIndices df, i < df.length := by
  intro i hi
  rw [commodityIndices, List.mem_filter, List.mem_range] at hi
  exact hi.1

/-- Concatenating consecutive slices of a grid recovers its suffix from the
first cut, provided the cuts are ordered and within bounds. -/
theorem sliceSpans_join (df : Grid) :
    ∀ (cuts : List Nat) (s : Nat), s ≤ df.length →
      List.Chain' (· ≤ ·) (s :: cuts) → (∀ c ∈ cuts, c ≤ df.length) →
      (sliceSpans df (s :: cuts)).flatten = df.drop s := by
  intro cuts
  induction cuts with
  | nil =>
    intro s hs _ _
    have hlen : (df.drop s).length = df.length - s := List.length_drop s df
    simp only [sliceSpans, List.flatten]
    rw [← hlen, List.take_length, List.append_nil]
  | cons c cuts ih =>
    intro s hs hchain hbound
    rw [List.chain'_cons] at hchain
    have hsc : s ≤ c := hchain.1
    have hc : c ≤ df.length := hbound c (List.mem_cons_self c cuts)
    simp only [sliceSpans, List.flatten_cons]
    rw [ih c hc hchain.2 (fun x hx => hbound x (List.mem_cons_of_mem c hx))]
    have hdd : df.drop c = (df.drop s).drop (c - s) := by
      rw [List.drop_drop]
      congr 1
      omega
    rw [hdd, List.take_append_drop]

/-- C1: for every grid, the sub-tables returned by `split_mixed_tables` are
the consecutive slices of an ordered in-bounds cut sequence beginning at
row 0 — row spans that partition `[0, rowCount)` with no gaps and no
overlaps — and concatenating the returned sub-tables in order reconstructs
the grid exactly, no row lost or duplicated. -/
theorem split_mixed_tables_join (df : Grid) :
    (split_mixed_tables df).flatten = df ∧
    ∃ cuts, List.Chain' (· ≤ ·) (0 :: cuts) ∧ (∀ c ∈ cuts, c ≤ df.length) ∧
      split_mixed_tables df = sliceSpans df (0 :: cuts) := by
  rcases h : commodityIndices df with _ | ⟨i0, idxs⟩
  · constructor
    · simp [split_mixed_tables, h]
    · refine ⟨[], by simp, by simp, ?_⟩
      simp only [split_mixed_tables, h, sliceSpans]
      rw [List.drop_zero, Nat.sub_zero, List.take_length]
  · have hpw : (i0 :: idxs).Pairwise (· < ·) := h ▸ commodityIndices_pairwise df
    have hlt : ∀ i ∈ i0 :: idxs, i < df.length := fun i hi =>
      commodityIndices_lt_length df i (h ▸ hi)
    have hchain : List.Chain' (· ≤ ·) (0 :: idxs.map (find_true_table_start df)) := by
      apply List.Pairwise.chain'
      rw [List.pairwise_cons]
      constructor
      · intro a _
        exact Nat.zero_le a
      · refine List.Pairwise.map _ (fun a b hab => ?_) (List.Pairwise.of_cons hpw)
        exact find_true_table_start_mono df (le_of_lt hab)
    have hbound : ∀ c ∈ idxs.map (find_true_table_start df), c ≤ df.length := by
      intro c hc
      rw [List.mem_map] at hc
      obtain ⟨a, ha, rfl⟩ := hc
      have h1 : a < df.length := hlt a (List.mem_cons_of_mem i0 ha)
      have h2 := find_true_table_start_le df a
      omega
    constructor
    · simp only [split_mixed_tables, h]
      rw [sliceSpans_join df _ 0 (Nat.zero_le _) hchain hbound, List.drop_zero]
    · exact ⟨idxs.map (find_true_table_start df), hchain, hbound, by
        simp only [split_mixed_tables, h]⟩

/-! ## Stitching: heap invariance when nothing merges -/

theorem getD_mem_of_lt {α : Type} (l : List α) (d : α) {i : Nat} (h : i < l.length) :
    l.getD i d ∈ l := by
  rw [List.getD_eq_getElem?_getD, List.getElem?_eq_getElem h]
  exact List.getElem_mem h

/-- If no fragment's page is one past another's, every step of the stitch
loop seals: the heap is untouched and the chain indices come out in input
order. -/
theorem stitchAux_no_merge (heap : List Entry)
    (hpages : ∀ a ∈ heap, ∀ b ∈ heap, b.page ≠ a.page + 1) :
    ∀ (js : List Nat) (stitched : List Nat) (cur : Nat), cur < heap.length →
      (∀ j ∈ js, j < heap.length) →
      stitchAux heap stitched cur js = (heap, stitched ++ cur :: js) := by
  intro js
  induction js with
  | nil =>
    intro stitched cur _ _
    simp [stitchAux]
  | cons j js ih =>
    intro stitched cur hcur hjs
    have hc : heap.getD cur ⟨0, []⟩ ∈ heap := getD_mem_of_lt heap _ hcur
    have hn : heap.getD j ⟨0, []⟩ ∈ heap :=
      getD_mem_of_lt heap _ (hjs j (List.mem_cons_self j js))
    have hne : ((heap.getD j ⟨0, []⟩).page == (heap.getD cur ⟨0, []⟩).page + 1) = false := by
      rw [beq_eq_false_iff_ne]
      exact hpages _ hc _ hn
    simp only [stitchAux, hne, Bool.false_and, Bool.false_eq_true, if_false]
    rw [ih (stitched ++ [cur]) j (hjs j (List.mem_cons_self j js))
      (fun x hx => hjs x (List.mem_cons_of_mem j hx))]
    simp

/-- Reading every index of a list back out of it reproduces the list. -/
theorem map_getD_range' {α : Type} (d : α) :
    ∀ (n s : Nat) (l : List α), s + n = l.length →
      (List.range' s n).map (fun i => l.getD i d) = l.drop s := by
  intro n
  induction n with
  | zero =>
    intro s l h
    simp only [List.range', List.map_nil]
    rw [List.drop_eq_nil_of_le (by omega)]
  | succ n ih =>
    intro s l h
    have hs : s < l.length := by omega
    rw [List.range'_succ, List.map_cons, ih (s + 1) l (by omega)]
    rw [List.drop_eq_getElem_cons hs]
    congr 1
    rw [List.getD_eq_getElem?_getD, List.getElem?_eq_getElem hs]
    rfl

/-! ## The classifier's commodity loop as a first-match search -/

/-- A row that decides the commodity loop: it mentions the grouping key and
at least one of the category names. -/
def decidesRow (r : List String) : Bool :=
  let t := lowerL (rowText r)
  containsStr t "commodity" &&
    (containsStr t "rice" || containsStr t "corn" || containsStr t "wheat")

/-- The commodity loop returns the verdict of the first deciding row:
marker rows that carry none of the category names are skipped. -/
theorem layer1Scan_eq_find (rs : Grid) :
    layer1Scan rs =
      (rs.find? decidesRow).map (fun r => containsStr (lowerL (rowText r)) "rice") := by
  induction rs with
  | nil => simp [layer1Scan]
  | cons r rs ih =>
    by_cases hco : containsStr (lowerL (rowText r)) "commodity"
    · by_cases hr : containsStr (lowerL (rowText r)) "rice"
      · have hd : decidesRow r = true := by simp [decidesRow, hco, hr]
        simp [layer1Scan, hco, hr, List.find?, hd]
      · by_cases hcw : (containsStr (lowerL (rowText r)) "corn" ||
            containsStr (lowerL (rowText r)) "wheat") = true
        · have hd : decidesRow r = true := by
            simp only [decidesRow, hco, Bool.true_and]
            rcases Bool.or_eq_true_iff.1 hcw with h | h <;> simp [h]
          simp only [layer1Scan, hco, if_true, hr, Bool.false_eq_true, if_false, hcw]
          simp [List.find?, hd, hr]
        · have hd : decidesRow r = false := by
            simp only [Bool.or_eq_true_iff, not_or, Bool.not_eq_true] at hcw
            simp [decidesRow, hco, hr, hcw.1, hcw.2]
          simp only [layer1Scan, hco, if_true, hr, Bool.false_eq_true, if_false, hcw]
          rw [List.find?, hd, ih]
    · have hd : decidesRow r = false := by
        rw [Bool.not_eq_true] at hco
        simp [decidesRow, hco]
      rw [Bool.not_eq_true] at hco
      simp only [layer1Scan, hco, Bool.false_eq_true, if_false]
      rw [List.find?, hd, ih]

/-! ## Text lemmas for degenerate grids -/

/-- Joining empty pieces yields only separator characters. -/
theorem joinWith_mem_sep (sep : List Char) :
    ∀ (ls : List (List Char)), (∀ l ∈ ls, l = []) →
      ∀ c ∈ joinWith sep ls, c ∈ sep := by
  intro ls
  induction ls with
  | nil =>
    intro _ c hc
    simp [joinWith] at hc
  | cons x xs ih =>
    intro hall c hc
    have hx : x = [] := hall x (List.mem_cons_self x xs)
    cases xs with
    | nil =>
      rw [joinWith, hx] at hc
      cases hc
    | cons y ys =>
      rw [joinWith, hx] at hc
      simp only [List.nil_append, List.mem_append] at hc
      rcases hc with hc | hc
      · exact hc
      · exact ih (fun l hl => hall l (List.mem_cons_of_mem x hl)) c hc

/-- A pattern whose first character does not occur in the text is not a
substring of the text. -/
theorem containsStr_eq_false_of_head (hay : List Char) (pat : String)
    (c : Char) (hpat : pat.toList.head? = some c)
    (hnot : ∀ x ∈ hay, x ≠ c) : containsStr hay pat = false := by
  obtain ⟨cs, hcs⟩ : ∃ cs, pat.toList = c :: cs := by
    rcases hp : pat.toList with _ | ⟨a, as⟩
    · rw [hp] at hpat
      cases hpat
    · rw [hp, List.head?_cons, Option.some.injEq] at hpat
      exact ⟨as, by rw [hpat]⟩
  rw [containsStr, List.any_eq_false]
  intro t ht
  rw [hcs]
  cases t with
  | nil => simp
  | cons a as =>
    have ha : a ∈ hay := by
      have hsuf := (List.mem_tails (a :: as) hay).1 ht
      exact hsuf.subset (List.mem_cons_self a as)
    rw [List.isPrefixOf_cons₂]
    simp only [Bool.and_eq_true, beq_iff_eq, not_and]
    intro hca
    exact absurd hca.symm (hnot a ha)

/-- A zero fold of maxima forces every element to zero. -/
theorem foldr_max_eq_zero {l : List Nat} (h : l.foldr max 0 = 0) :
    ∀ x ∈ l, x = 0 := by
  induction l with
  | nil => simp
  | cons a l ih =>
    rw [List.foldr_cons] at h
    rcases Nat.max_eq_zero_iff.1 h with ⟨h1, h2⟩
    intro x hx
    rcases List.mem_cons.1 hx with rfl | hx
    · exact h1
    · exact ih h2 x hx

/-- A zero-column grid has only empty rows. -/
theorem rows_empty_of_ncols_zero {df : Grid} (h : ncols df = 0) :
    ∀ r ∈ df, r = [] := by
  intro r hr
  have hr0 : r.length = 0 :=
    foldr_max_eq_zero h r.length (List.mem_map_of_mem List.length hr)
  exact List.length_eq_zero.1 hr0

/-- All characters of the text of a grid of empty rows are newlines. -/
theorem gridText_all_newline {df : Grid} (h : ∀ r ∈ df, r = []) :
    ∀ c ∈ gridText df, c = '\n' := by
  intro c hc
  have hmem : c ∈ ['\n'] := by
    refine joinWith_mem_sep ['\n'] (df.map rowText) ?_ c hc
    intro l hl
    rw [List.mem_map] at hl
    obtain ⟨r, hr, rfl⟩ := hl
    rw [h r hr]
    rfl
  simpa using hmem

section DegenerateGrids

variable {df : Grid}

/-- Lower-casing keeps the all-newline property. -/
theorem lowerL_all_newline {l : List Char} (h : ∀ c ∈ l, c = '\n') :
    ∀ c ∈ lowerL l, c = '\n' := by
  intro c hc
  rw [lowerL, List.mem_map] at hc
  obtain ⟨a, ha, rfl⟩ := hc
  rw [h a ha]
  decide

end DegenerateGrids

/-- C8: on every degenerate grid — no rows, or no columns — the classifier
returns a discard verdict (and, being a total function, does so without
raising); and a grid whose concatenated text is empty fails the
digit-density check, hence the structural-validity check, rather than
passing vacuously. -/
theorem classifier_discards_degenerate (df : Grid) :
    ((df.length = 0 ∨ ncols df = 0) → is_strictly_rice_table df = false) ∧
    ((gridText df).length = 0 →
      densityOk df = false ∧ is_valid_data_structure df = false) := by
  constructor
  · intro h
    have hrows : ∀ r ∈ df, r = [] := by
      rcases h with h | h
      · rw [List.length_eq_zero] at h
        rw [h]
        intro r hr
        cases hr
      · exact rows_empty_of_ncols_zero h
    have hchars : ∀ c ∈ gridText df, c = '\n' := gridText_all_newline hrows
    have hchars20 : ∀ c ∈ headerChunk df, c = '\n' := by
      rw [headerChunk]
      exact lowerL_all_newline
        (gridText_all_newline (fun r hr => hrows r (List.take_subset 20 df hr)))
    have hlow : ∀ c ∈ lowerL (gridText df), c = '\n' := lowerL_all_newline hchars
    have hnc : containsStr (headerChunk df) "commodity" = false := by
      refine containsStr_eq_false_of_head _ _ 'c' ?_ ?_
      · decide
      · intro x hx
        rw [hchars20 x hx]
        decide
    have hnarr : is_narrative_text df = false := by
      have hstop : ∀ w ∈ stopWords, containsStr (lowerL (gridText df)) w = false := by
        have hhead : ∀ w ∈ stopWords, w.toList.head? = some ' ' := by decide
        intro w hw
        refine containsStr_eq_false_of_head _ _ ' ' (hhead w hw) ?_
        intro x hx
        rw [hlow x hx]
        decide
      have hcount : stopWords.countP (fun w => containsStr (lowerL (gridText df)) w) = 0 := by
        rw [List.countP_eq_zero]
        intro w hw
        rw [hstop w hw]
        exact Bool.false_ne_true
      rw [is_narrative_text, hcount]
      decide
    have hdf : densityOk df = false := by
      rcases Nat.eq_zero_or_pos (gridText df).length with ht | ht
      · simp [densityOk, ht]
      · have hdig : (gridText df).countP Char.isDigit = 0 := by
          rw [List.countP_eq_zero]
          intro a ha
          rw [hchars a ha]
          decide
        simp only [densityOk, hdig]
        rw [if_neg (by omega)]
        simp only [decide_eq_false_iff_not]
        omega
    have hval : is_valid_data_structure df = false := by
      rw [is_valid_data_structure, hdf, Bool.and_false]
    have hunl : unlabeledChecks df = false := by
      simp [unlabeledChecks, hnarr, hval]
    simp [is_strictly_rice_table, hnc, hunl]
  · intro h
    have hd : densityOk df = false := by simp [densityOk, h]
    exact ⟨hd, by rw [is_valid_data_structure, hd, Bool.and_false]⟩

/-- C8 witness: the one-row zero-column grid has empty text, a zero column
count, and is discarded with a failing density check. -/
theorem classifier_discards_degenerate_witness :
    is_strictly_rice_table [([] : List String)] = false ∧
    densityOk [([] : List String)] = false ∧
    is_valid_data_structure [([] : List String)] = false :=
  ⟨(classifier_discards_degenerate [[]]).1 (Or.inr (by decide)),
    ((classifier_discards_degenerate [[]]).2 (by decide)).1,
    ((classifier_discards_degenerate [[]]).2 (by decide)).2⟩

/-- A grid of exactly 2% digit density: 1 digit among 50 characters. -/
def exDensityPass : Grid := [[String.mk ('1' :: List.replicate 49 'a')]]

/-- A grid of exactly 1.9% digit density: 19 digits among 1000 characters. -/
def exDensityFail : Grid := [[String.mk (List.replicate 981 'a' ++ List.replicate 19 '1')]]

/-- C9: the digit-density check of Layer 3 passes exactly when the ratio of
digit characters to total characters of the grid's text is at least 0.02;
a grid at exactly 2.0% density passes and one at 1.9% fails. -/
theorem density_check_threshold :
    (∀ df : Grid, densityOk df = true ↔
      (2 : ℚ) / 100 ≤
        ((gridText df).countP Char.isDigit : ℚ) / ((gridText df).length : ℚ)) ∧
    densityOk exDensityPass = true ∧ densityOk exDensityFail = false := by
  refine ⟨fun df => ?_, by decide, ?_⟩
  · rcases Nat.eq_zero_or_pos (gridText df).length with ht | ht
    · have hfalse : densityOk df = false := by simp [densityOk, ht]
      rw [hfalse]
      simp only [Bool.false_eq_true, false_iff, not_le, ht]
      push_cast
      rw [div_zero]
      norm_num
    · have hne : ¬(gridText df).length = 0 := by omega
      have hpos : (0 : ℚ) < ((gridText df).length : ℚ) := by exact_mod_cast ht
      simp only [densityOk, hne, if_false, decide_eq_true_eq]
      rw [div_le_div_iff₀ (by norm_num : (0 : ℚ) < 100) hpos]
      constructor
      · intro h
        have h' : 2 * (gridText df).length ≤ (gridText df).countP Char.isDigit * 100 := by
          omega
        exact_mod_cast h'
      · intro h
        have h' : 2 * (gridText df).length ≤ (gridText df).countP Char.isDigit * 100 := by
          exact_mod_cast h
        omega
  · have hgt : gridText exDensityFail = List.replicate 981 'a' ++ List.replicate 19 '1' := rfl
    have hlen : (gridText exDensityFail).length = 1000 := by
      rw [hgt, List.length_append, List.length_replicate, List.length_replicate]
    have hdig : (gridText exDensityFail).countP Char.isDigit = 19 := by
      rw [hgt, List.countP_append, List.countP_replicate, List.countP_replicate]
      rw [show Char.isDigit 'a' = false from by decide,
        show Char.isDigit '1' = true from by decide]
      simp
    simp only [densityOk, hlen, hdig]
    rw [if_neg (by omega)]
    simp only [decide_eq_false_iff_not]
    omega

/-- A grid whose first marker row names no category, followed by a marker
row naming the target. -/
def exSkippedMarker : Grid := [["Commodity"], ["Commodity Rice"]]

/-- C2 counterexample: in `exSkippedMarker` the first row containing the
grouping-key marker ("commodity") contains none of "rice", "corn",
"wheat", so by the claim the verdict should be that of the fall-through
layers — which discard — yet the classifier keeps the table, because its
loop keeps scanning and lets the second marker row decide. -/
theorem classifier_later_marker_row_decides :
    containsStr (rowTextLower exSkippedMarker 0) "commodity" = true ∧
    containsStr (rowTextLower exSkippedMarker 0) "rice" = false ∧
    containsStr (rowTextLower exSkippedMarker 0) "corn" = false ∧
    containsStr (rowTextLower exSkippedMarker 0) "wheat" = false ∧
    unlabeledChecks exSkippedMarker = false ∧
    is_strictly_rice_table exSkippedMarker = true := by decide

/-- C2 amended: when the 20-row header window mentions the grouping-key
marker, the verdict is that of the first row of the window that contains
the marker together with at least one category name ("rice" keeps,
"corn"/"wheat" without "rice" discards); marker rows naming no category
are skipped, and only if no row of the window decides does control fall
through to the later layers. -/
theorem classifier_first_deciding_row (df : Grid)
    (h : containsStr (headerChunk df) "commodity" = true) :
    is_strictly_rice_table df =
      (((df.take 20).find? decidesRow).map
        (fun r => containsStr (lowerL (rowText r)) "rice")).getD
        (unlabeledChecks df) := by
  simp only [is_strictly_rice_table, h, if_true, layer1Scan_eq_find]
  rcases (df.take 20).find? decidesRow with _ | r
  · rfl
  · rfl

/-- A grid carrying an explicit rice label. -/
def exLabelRice : Grid := [["Commodity: Rice"], ["2023", "100"]]

/-- C2 amended witness at `exLabelRice`. -/
theorem classifier_first_deciding_row_witness :
    containsStr (headerChunk exLabelRice) "commodity" = true ∧
    is_strictly_rice_table exLabelRice =
      (((exLabelRice.take 20).find? decidesRow).map
        (fun r => containsStr (lowerL (rowText r)) "rice")).getD
        (unlabeledChecks exLabelRice) :=
  ⟨by decide, classifier_first_deciding_row exLabelRice (by decide)⟩

/-- A two-table sheet used to instantiate the segmentation theorems. -/
def exSheet : Grid :=
  [["PSD Table 1"], ["Country"], ["Commodity: Rice"], ["10"], ["20"],
   ["Prices Table"], ["Commodity: Corn"], ["30"]]

/-- C1 witness at `exSheet`. -/
theorem split_mixed_tables_join_witness :
    (split_mixed_tables exSheet).flatten = exSheet ∧
    ∃ cuts, List.Chain' (· ≤ ·) (0 :: cuts) ∧ (∀ c ∈ cuts, c ≤ exSheet.length) ∧
      split_mixed_tables exSheet = sliceSpans exSheet (0 :: cuts) :=
  split_mixed_tables_join exSheet

/-- C5: on every grid with at least one anchor row, the first sub-table
returned by `split_mixed_tables` is an initial segment of the grid — it
begins at row 0 — regardless of where the first anchor's resolved start
lands. -/
theorem split_first_sub_table_from_zero (df : Grid)
    (h : commodityIndices df ≠ []) :
    ∃ e rest, split_mixed_tables df = df.take e :: rest := by
  rcases hh : commodityIndices df with _ | ⟨i0, idxs⟩
  · exact absurd hh h
  · rcases hidxs : idxs.map (find_true_table_start df) with _ | ⟨c, cs⟩
    · refine ⟨df.length, [], ?_⟩
      simp only [split_mixed_tables, hh, hidxs, sliceSpans]
      rw [List.drop_zero, Nat.sub_zero, List.take_length]
    · refine ⟨c, sliceSpans df (c :: cs), ?_⟩
      simp only [split_mixed_tables, hh, hidxs, sliceSpans]
      rw [List.drop_zero, Nat.sub_zero]

/-- A sheet whose single anchor sits far from the top, so that its resolved
start is positive. -/
def exLateAnchor : Grid :=
  [["r0"], ["r1"], ["r2"], ["r3"], ["r4"], ["Commodity: Rice"], ["10"]]

/-- C5 witness at `exLateAnchor`: the anchor at row 5 resolves to row 3, yet
the first sub-table starts at row 0. -/
theorem split_first_sub_table_from_zero_witness :
    commodityIndices exLateAnchor ≠ [] ∧
    find_true_table_start exLateAnchor 5 = 3 ∧
    ∃ e rest, split_mixed_tables exLateAnchor = exLateAnchor.take e :: rest :=
  ⟨by decide, by decide, split_first_sub_table_from_zero exLateAnchor (by decide)⟩

/-- C6: for every grid and every anchor index `i`, `find_true_table_start`
scans backward from `i`, never below row 0 and never more than 15 rows
below `i`, and returns the first row found (the highest-indexed one at or
below `i`) whose lower-cased text contains one of the title markers
"psd table", "trade matrix", "prices table"; if the window holds no such
row it returns `max(0, i - 2)` (truncated subtraction below). -/
theorem find_true_table_start_resolution (df : Grid) (i : Nat) :
    (hasTitleMarker df (find_true_table_start df i) = true ∧
      i - 15 ≤ find_true_table_start df i ∧ find_true_table_start df i ≤ i ∧
      ∀ k, find_true_table_start df i < k → k ≤ i → hasTitleMarker df k = false) ∨
    ((∀ k, i - 15 ≤ k → k ≤ i → hasTitleMarker df k = false) ∧
      find_true_table_start df i = i - 2) :=
  find_true_table_start_spec df i

/-- C6 witness: the characterization instantiated on `exSheet` at anchor 6,
whose window contains the "prices table" row 5. -/
theorem find_true_table_start_resolution_witness :
    (hasTitleMarker exSheet (find_true_table_start exSheet 6) = true ∧
      6 - 15 ≤ find_true_table_start exSheet 6 ∧ find_true_table_start exSheet 6 ≤ 6 ∧
      ∀ k, find_true_table_start exSheet 6 < k → k ≤ 6 → hasTitleMarker exSheet k = false) ∨
    ((∀ k, 6 - 15 ≤ k → k ≤ 6 → hasTitleMarker exSheet k = false) ∧
      find_true_table_start exSheet 6 = 6 - 2) :=
  find_true_table_start_resolution exSheet 6

/-! ## Stitching claims -/

/-- C3: in both stitching passes a fragment is merged into the open chain
exactly when its page number is one past the chain's last-absorbed page
and its column count equals the chain's; when either condition fails the
chain is sealed and a new chain opens from the fragment.  Stated on one
step of the PDF-scraper fold and of the OCR stitch loop. -/
theorem stitch_merge_conditions (finals : List Grid) (cur nxt : Entry)
    (heap : List Entry) (stitched : List Nat) (curIdx j : Nat) (js : List Nat) :
    (pdfStitchStep (finals, cur) nxt =
      if nxt.page = cur.page + 1 ∧ ncols cur.df = ncols nxt.df then
        (finals, ⟨nxt.page, cur.df ++ nxt.df⟩)
      else (finals ++ [cur.df], nxt)) ∧
    (stitchAux heap stitched curIdx (j :: js) =
      if (heap.getD j ⟨0, []⟩).page = (heap.getD curIdx ⟨0, []⟩).page + 1 ∧
          ncols (heap.getD j ⟨0, []⟩).df = ncols (heap.getD curIdx ⟨0, []⟩).df then
        stitchAux (heap.set curIdx ⟨(heap.getD j ⟨0, []⟩).page,
          (heap.getD curIdx ⟨0, []⟩).df ++
            mergeNextDf (heap.getD curIdx ⟨0, []⟩).df (heap.getD j ⟨0, []⟩).df⟩)
          stitched curIdx js
      else stitchAux heap (stitched ++ [curIdx]) j js) := by
  constructor
  · by_cases h1 : nxt.page = cur.page + 1 <;>
      by_cases h2 : ncols cur.df = ncols nxt.df <;>
      simp [pdfStitchStep, are_tables_mergeable, h1, h2]
  · by_cases h1 : (heap.getD j ⟨0, []⟩).page = (heap.getD curIdx ⟨0, []⟩).page + 1 <;>
      by_cases h2 : ncols (heap.getD j ⟨0, []⟩).df = ncols (heap.getD curIdx ⟨0, []⟩).df <;>
      simp [stitchAux, h1, h2]

/-- A chain head whose first row is a header, with one data row. -/
def exHeaderA : Grid := [["Country", "Commodity", "Year"], ["a", "1", "2"]]

/-- The following fragment, repeating the header row exactly. -/
def exHeaderB : Grid := [["Country", "Commodity", "Year"], ["b", "3", "4"]]

/-- C4 counterexample: the PDF-scraper stitching pass merges the two
adjacent same-width fragments although every cell of the incoming first
row matches the chain's first row — more than half — and still appends
the fragment whole: the duplicated header row is not dropped, against the
claim that such merges drop it. -/
theorem pdf_stitch_keeps_duplicate_header :
    (exHeaderB.headD []).length < 2 * headerMatchCount (exHeaderB.headD []) (exHeaderA.headD []) ∧
    pdfStitch [⟨1, exHeaderA⟩, ⟨2, exHeaderB⟩] = [exHeaderA ++ exHeaderB] := by decide

/-- C4 amended: only the OCR stitcher suppresses repeated headers — on its
merges the incoming fragment's first row is dropped exactly when strictly
more than half of its cells equal the chain's first-row cells position by
position, all other rows being appended unchanged in order — while the
PDF-scraper stitching pass appends every row of the merged fragment
unchanged, its first row included. -/
theorem header_suppression_amended (currDf nextDf : Grid) (finals : List Grid)
    (cur nxt : Entry) :
    (dropsHeader currDf nextDf = true ↔
      ((nextDf.headD []).length : ℚ) / 2 <
        (headerMatchCount (nextDf.headD []) (currDf.headD []) : ℚ)) ∧
    (mergeNextDf currDf nextDf =
      if dropsHeader currDf nextDf = true then nextDf.drop 1 else nextDf) ∧
    (are_tables_mergeable cur.df nxt.df cur.page nxt.page = true →
      pdfStitchStep (finals, cur) nxt = (finals, ⟨nxt.page, cur.df ++ nxt.df⟩)) := by
  refine ⟨?_, rfl, ?_⟩
  · rw [dropsHeader, decide_eq_true_eq]
    rw [div_lt_iff₀ (by norm_num : (0 : ℚ) < 2)]
    constructor
    · intro h
      have h' : (nextDf.headD []).length <
          headerMatchCount (nextDf.headD []) (currDf.headD []) * 2 := by omega
      exact_mod_cast h'
    · intro h
      have h' : (nextDf.headD []).length <
          headerMatchCount (nextDf.headD []) (currDf.headD []) * 2 := by exact_mod_cast h
      omega
  · intro h
    simp [pdfStitchStep, h]

/-- C4 amended witness: the OCR stitcher drops the duplicated header of
`exHeaderB`, the PDF pass appends it unchanged. -/
theorem header_suppression_amended_witness :
    mergeNextDf exHeaderA exHeaderB = exHeaderB.drop 1 ∧
    pdfStitchStep ([], ⟨1, exHeaderA⟩) ⟨2, exHeaderB⟩ = ([], ⟨2, exHeaderA ++ exHeaderB⟩) :=
  ⟨by decide,
    (header_suppression_amended exHeaderA exHeaderB [] ⟨1, exHeaderA⟩ ⟨2, exHeaderB⟩).2.2
      (by decide)⟩

/-- Two page-adjacent same-width fragments. -/
def exStitchInput : List Entry :=
  [⟨1, [["h1", "h2"], ["1", "2"]]⟩, ⟨2, [["h1", "h2"], ["3", "4"]]⟩]

/-- C7 counterexample: `current_entry` aliases the input list's dictionaries,
so merging assigns through the alias — after stitching `exStitchInput` its
first entry holds the merged grid and page 2, not its original values: the
call modifies its input. -/
theorem stitch_tables_mutates_input :
    (stitch_tables exStitchInput).1 ≠ exStitchInput := by decide

/-- C7 amended: the stitch pass's only effect beyond its result is the
in-place update of absorbing chain-head entries; whenever no fragment's
page number is one past another's — so the adjacency condition never
holds and nothing merges — every input entry keeps its page number and
grid, and the returned tables are exactly the input fragments. -/
theorem stitch_tables_no_merge_preserves_input (heap : List Entry)
    (h : ∀ a ∈ heap, ∀ b ∈ heap, b.page ≠ a.page + 1) :
    (stitch_tables heap).1 = heap ∧ (stitch_tables heap).2 = heap := by
  cases heap with
  | nil => exact ⟨rfl, rfl⟩
  | cons e rest =>
    have hlen : ∀ j ∈ List.range' 1 rest.length, j < (e :: rest).length := by
      intro j hj
      rw [List.mem_range'] at hj
      obtain ⟨i, hi, rfl⟩ := hj
      simp only [List.length_cons]
      omega
    have haux := stitchAux_no_merge (e :: rest) h (List.range' 1 rest.length) [] 0
      (by simp) hlen
    rw [stitch_tables]
    simp only [haux, List.nil_append]
    refine ⟨trivial, ?_⟩
    have h0 : (0 :: List.range' 1 rest.length) = List.range' 0 (e :: rest).length := by
      rw [List.length_cons, List.range'_succ]
    rw [h0, map_getD_range' ⟨0, []⟩ (e :: rest).length 0 (e :: rest) (by omega),
      List.drop_zero]

/-- Fragments on pages 1 and 3: a page gap, so nothing can merge. -/
def exGapInput : List Entry := [⟨1, [["a", "b"]]⟩, ⟨3, [["c", "d"]]⟩]

/-- C7 amended witness at `exGapInput`. -/
theorem stitch_tables_no_merge_preserves_input_witness :
    (stitch_tables exGapInput).1 = exGapInput ∧
    (stitch_tables exGapInput).2 = exGapInput :=
  stitch_tables_no_merge_preserves_input exGapInput (by decide)

/-- C10: a cleaned per-page table is accepted as a fragment for stitching
exactly when it has at least 2 rows, at least 2 columns, and digit density
at least 0.08 over its text with spaces and newlines removed; everything
else is dropped before stitching. -/
theorem ocr_fragment_admission :
    (∀ t : Grid, is_valid_table t = true ↔
      (2 ≤ t.length ∧ 2 ≤ ncols t ∧
        (8 : ℚ) / 100 ≤
          ((ocrBlob t).countP Char.isDigit : ℚ) / ((ocrBlob t).length : ℚ))) ∧
    (∀ (pages : List (Nat × List Grid)) (e : Entry),
      e ∈ collectFragments pages ↔
        ∃ pr ∈ pages, e.page = pr.1 + 1 ∧ e.df ∈ pr.2 ∧ is_valid_table e.df = true) := by
  constructor
  · intro t
    by_cases hsize : t.length < 2 ∨ ncols t < 2
    · have hfalse : is_valid_table t = false := by
        rcases hsize with h | h <;> simp [is_valid_table, h]
      rw [hfalse]
      simp only [Bool.false_eq_true, false_iff, not_and]
      intro h1 h2
      omega
    · push_neg at hsize
      have hc : (t.length < 2 || ncols t < 2) = false := by
        simp only [Bool.or_eq_false_iff, decide_eq_false_iff_not, not_lt]
        exact hsize
      rcases Nat.eq_zero_or_pos (ocrBlob t).length with ht | ht
      · have hfalse : is_valid_table t = false := by
          simp [is_valid_table, hc, ht]
        rw [hfalse]
        simp only [Bool.false_eq_true, false_iff, not_and]
        intro _ _
        rw [ht]
        push_cast
        rw [div_zero]
        norm_num
      · have hne : ¬(ocrBlob t).length = 0 := by omega
        have hpos : (0 : ℚ) < ((ocrBlob t).length : ℚ) := by exact_mod_cast ht
        simp only [is_valid_table, hc, Bool.false_eq_true, if_false, hne,
          decide_eq_true_eq]
        rw [div_le_div_iff₀ (by norm_num : (0 : ℚ) < 100) hpos]
        constructor
        · intro h
          refine ⟨by omega, by omega, ?_⟩
          have h' : 8 * (ocrBlob t).length ≤ (ocrBlob t).countP Char.isDigit * 100 := by
            omega
          exact_mod_cast h'
        · rintro ⟨_, _, h⟩
          have h' : 8 * (ocrBlob t).length ≤ (ocrBlob t).countP Char.isDigit * 100 := by
            exact_mod_cast h
          omega
  · intro pages e
    rw [collectFragments, List.mem_flatMap]
    constructor
    · rintro ⟨pr, hpr, he⟩
      rw [List.mem_map] at he
      obtain ⟨t, ht, rfl⟩ := he
      rw [List.mem_filter] at ht
      exact ⟨pr, hpr, rfl, ht.1, ht.2⟩
    · rintro ⟨pr, hpr, hpage, hdf, hvalid⟩
      refine ⟨pr, hpr, ?_⟩
      rw [List.mem_map]
      refine ⟨e.df, List.mem_filter.2 ⟨hdf, hvalid⟩, ?_⟩
      cases e
      simp only [Entry.mk.injEq]
      exact ⟨hpage.symm, trivial⟩

end RicePipeline
